import Mathlib

/-!
Shallow embedding of `src/lib/shopping-list-generator.ts` (the shopping-list
aggregation and materialization of the meal-planning app), together with the
minimal data model from the SQL schema it reads and writes
(`meal_plan_entries`, `recipe_ingredients`, `shopping_lists`,
`shopping_list_items`).

Modelling conventions:
- JavaScript strings are `List Char` (`Str`), so that the string operations
  the code performs (template-literal concatenation with `|`, `split("|")`)
  are ordinary list operations.
- SQL `NUMERIC` / JS numbers are modelled as `ℚ` (exact arithmetic); a
  nullable quantity is `Option ℚ`, and JS `null * n = 0` is `getD 0`.
- The JS object `ingredients` (string-keyed, insertion-ordered) is an
  association list `List (Str × AggVal)`; `Object.entries` is the list itself.
- The Supabase client is a record of (possibly failing) query functions plus
  the authenticated user; `generateShoppingList` additionally returns the
  ordered log of store operations it issued, so that "fails before any
  write" is a statement about the log.
-/

set_option autoImplicit false

namespace AppWeb

/-- JavaScript strings, modelled as lists of characters. -/
abbrev Str := List Char

/-- A row of `recipe_ingredients` as selected by the generator
(`select("ingredient_name, quantity, unit")`); `quantity` is a nullable
`NUMERIC` column. -/
structure RecipeIngredient where
  ingredient_name : Str
  quantity : Option ℚ
  unit : Str
  deriving DecidableEq, Repr, Inhabited

/-- A row of `meal_plan_entries` as selected by the generator
(`select("recipe_id, servings")`); `recipe_id` is nullable. -/
structure EntryRow where
  recipe_id : Option Str
  servings : ℚ
  deriving DecidableEq, Repr, Inhabited

/-- The value stored in the JS `ingredients` accumulator object:
`{ quantity, unit }`. -/
structure AggVal where
  quantity : ℚ
  unit : Str
  deriving DecidableEq, Repr, Inhabited

/-- A shopping-list item as built on line 53-58 of the source
(`product_name`, `quantity`, `unit`, `is_purchased`). -/
structure ShoppingItem where
  product_name : Str
  quantity : ℚ
  unit : Str
  is_purchased : Bool
  deriving DecidableEq, Repr, Inhabited

/-- The row inserted into `shopping_lists` (line 63-67 of the source). -/
structure ShoppingListRow where
  user_id : Str
  meal_plan_id : Str
  name : Str
  deriving DecidableEq, Repr, Inhabited

/-- The aggregation key of line 38:
`` key = `${ingredient.ingredient_name}|${ingredient.unit}` ``. -/
def mkKey (n u : Str) : Str := n ++ '|' :: u

/-- One aggregation step on the `ingredients` object (lines 40-47):
if `key` is absent, create `{ quantity: 0, unit }`; then
`ingredients[key].quantity += q`.  On an association list this is: bump the
existing entry for `key`, or append a new entry `(key, ⟨q, u⟩)` at the end
(JS objects preserve insertion order for string keys). -/
def insertIngredient (key : Str) (u : Str) (q : ℚ) :
    List (Str × AggVal) → List (Str × AggVal)
  | [] => [(key, ⟨q, u⟩)]
  | (k, v) :: rest =>
    if k = key then (k, ⟨v.quantity + q, v.unit⟩) :: rest
    else (k, v) :: insertIngredient key u q rest

/-- The inner loop of lines 37-48 for one entry: fold the recipe's
ingredients into the accumulator, each contributing
`quantity * servings` (JS `null * servings = 0`). -/
def processIngredients (servings : ℚ) (ings : List RecipeIngredient)
    (acc : List (Str × AggVal)) : List (Str × AggVal) :=
  ings.foldl
    (fun a ing =>
      insertIngredient (mkKey ing.ingredient_name ing.unit) ing.unit
        ((ing.quantity.getD 0) * servings) a)
    acc

/-- The aggregation loop of lines 25-49, with the per-recipe ingredient
fetch abstracted as a function `fetch` (the pure core of the generator):
entries with `recipe_id = null` are skipped (`continue`, line 28). -/
def aggregateEntries (fetch : Str → List RecipeIngredient)
    (entries : List EntryRow) : List (Str × AggVal) :=
  entries.foldl
    (fun acc e =>
      match e.recipe_id with
      | none => acc
      | some rid => processIngredients e.servings (fetch rid) acc)
    []

/-- JS `key.split("|")` on a `List Char` string: split on every `'|'`,
keeping empty segments (`"".split("|") = [""]`, `"a|".split("|") = ["a",""]`,
exactly as in JavaScript). -/
def splitBar : Str → List Str
  | [] => [[]]
  | c :: rest =>
    match splitBar rest with
    | [] => [[]]
    | s :: ss => if c = '|' then [] :: s :: ss else (c :: s) :: ss

/-- Lines 51-59: one `Object.entries` pair becomes a shopping item;
`const [name, unit] = key.split("|")` binds `name` to the first segment,
and the item uses that `name` but `value.unit` (not the split's `unit`). -/
def toItem (kv : Str × AggVal) : ShoppingItem :=
  { product_name := (splitBar kv.1).headD []
    quantity := kv.2.quantity
    unit := kv.2.unit
    is_purchased := false }

/-- The merged items the generator builds (line 51) and later inserts. -/
def shoppingItemsOf (fetch : Str → List RecipeIngredient)
    (entries : List EntryRow) : List ShoppingItem :=
  (aggregateEntries fetch entries).map toItem

/-- The flattened list of `(servings, ingredient)` tuples the aggregation
loop processes, in processing order: entries in order, each non-null
recipe's ingredients in order, tagged with the owning entry's servings. -/
def tuplesOfEntries (fetch : Str → List RecipeIngredient) :
    List EntryRow → List (ℚ × RecipeIngredient)
  | [] => []
  | e :: rest =>
    (match e.recipe_id with
     | none => []
     | some rid => (fetch rid).map fun ing => (e.servings, ing)) ++
      tuplesOfEntries fetch rest

/-- One aggregation step at the tuple level. -/
def aggStep (acc : List (Str × AggVal)) (t : ℚ × RecipeIngredient) :
    List (Str × AggVal) :=
  insertIngredient (mkKey t.2.ingredient_name t.2.unit) t.2.unit
    ((t.2.quantity.getD 0) * t.1) acc

/-- Aggregation of a flat tuple list (the loop of lines 37-48 run over all
tuples in processing order). -/
def aggTuples (ts : List (ℚ × RecipeIngredient))
    (acc : List (Str × AggVal)) : List (Str × AggVal) :=
  ts.foldl aggStep acc

/-- The contribution of a tuple: `quantity × servings`, null quantity as 0. -/
def contrib (t : ℚ × RecipeIngredient) : ℚ := (t.2.quantity.getD 0) * t.1

/-- Sum of the contributions of all tuples whose aggregation key is `k`. -/
def keySum (k : Str) (ts : List (ℚ × RecipeIngredient)) : ℚ :=
  ((ts.filter fun t => decide (mkKey t.2.ingredient_name t.2.unit = k)).map
    contrib).sum

/-- Modelled from the spec ("the sum over all contributing tuples of
`quantity × serving_multiplier_of_owning_entry`" for tuples "with that
exact (name, unit) pair"): the sum of `quantity × servings` over the tuples
whose ingredient name is exactly `n` and unit exactly `u`. -/
def specContribution (ts : List (ℚ × RecipeIngredient)) (n u : Str) : ℚ :=
  ((ts.filter fun t =>
      decide (t.2.ingredient_name = n) && decide (t.2.unit = u)).map
    contrib).sum

/-- First value associated to key `k` in the accumulator. -/
def findVal (k : Str) (acc : List (Str × AggVal)) : Option AggVal :=
  (acc.find? fun kv => decide (kv.1 = k)).map (·.2)

/-! ## The materializer (`generateShoppingList`) -/

/-- Errors `generateShoppingList` can throw: the `new Error("Not
authenticated")` of line 14, or a store error rethrown on lines 23, 35, 71
and 80 (carried here as the store's message). -/
inductive GenError where
  | notAuthenticated
  | dbError (msg : Str)
  deriving DecidableEq, Repr

/-- The success value of line 82 (`success: true` carries no information):
the new list's id and the number of items inserted. -/
structure GenResult where
  listId : Str
  itemCount : Nat
  deriving DecidableEq, Repr, Inhabited

/-- One operation issued to the store, in order: the auth lookup, the two
kinds of reads, and the two writes. -/
inductive DbOp where
  | readUser
  | readEntries (mealPlanId startDate endDate : Str)
  | readIngredients (recipeId : Str)
  | writeList (row : ShoppingListRow)
  | writeItems (listId : Str) (items : List ShoppingItem)
  deriving DecidableEq, Repr

/-- The Supabase client as `generateShoppingList` uses it: the current
user (if any) and the four store calls, each of which may fail with a
store error message. -/
structure DbClient where
  user : Option Str
  queryEntries : Str → Str → Str → Except Str (List EntryRow)
  queryIngredients : Str → Except Str (List RecipeIngredient)
  insertShoppingList : ShoppingListRow → Except Str Str
  insertItems : Str → List ShoppingItem → Except Str Unit

/-- Line 66: `` name: `Shopping List for ${startDate} to ${endDate}` ``. -/
def listName (startDate endDate : Str) : Str :=
  "Shopping List for ".toList ++ startDate ++ " to ".toList ++ endDate

/-- The entry loop of lines 27-49: for each entry with a non-null
`recipe_id`, issue the `recipe_ingredients` read (logged) and fold the
returned rows into the accumulator; stop and propagate on the first read
error (line 35). Returns the result together with the reads issued. -/
def fetchLoop (db : DbClient) :
    List EntryRow → List (Str × AggVal) →
      Except Str (List (Str × AggVal)) × List DbOp
  | [], acc => (Except.ok acc, [])
  | e :: rest, acc =>
    match e.recipe_id with
    | none => fetchLoop db rest acc
    | some rid =>
      match db.queryIngredients rid with
      | Except.error m => (Except.error m, [DbOp.readIngredients rid])
      | Except.ok ings =>
        let res := fetchLoop db rest (processIngredients e.servings ings acc)
        (res.1, DbOp.readIngredients rid :: res.2)

/-- The exported `generateShoppingList(mealPlanId, startDate, endDate)` (lines 9-87):
auth check, date-ranged entries read, per-entry ingredients reads and
aggregation, list creation, bulk item insert.  The `catch` block of lines
83-86 only logs and rethrows, so errors propagate unchanged.  Returns the
thrown-or-returned outcome together with the ordered log of store
operations issued. -/
def generateShoppingList (db : DbClient)
    (mealPlanId startDate endDate : Str) :
    Except GenError GenResult × List DbOp :=
  match db.user with
  | none => (Except.error GenError.notAuthenticated, [DbOp.readUser])
  | some uid =>
    let log0 := [DbOp.readUser, DbOp.readEntries mealPlanId startDate endDate]
    match db.queryEntries mealPlanId startDate endDate with
    | Except.error m => (Except.error (GenError.dbError m), log0)
    | Except.ok entries =>
      match fetchLoop db entries [] with
      | (Except.error m, ops) => (Except.error (GenError.dbError m), log0 ++ ops)
      | (Except.ok acc, ops) =>
        let items := acc.map toItem
        let row : ShoppingListRow :=
          { user_id := uid, meal_plan_id := mealPlanId
            name := listName startDate endDate }
        let log1 := log0 ++ ops ++ [DbOp.writeList row]
        match db.insertShoppingList row with
        | Except.error m => (Except.error (GenError.dbError m), log1)
        | Except.ok newListId =>
          let log2 := log1 ++ [DbOp.writeItems newListId items]
          match db.insertItems newListId items with
          | Except.error m => (Except.error (GenError.dbError m), log2)
          | Except.ok _ =>
            (Except.ok { listId := newListId, itemCount := items.length }, log2)

/-! ## A concrete store (honest database semantics) -/

/-- Lexicographic string comparison `a ≤ b`, as the store compares ISO-8601
`DATE` strings (chronological order coincides with lexicographic order on
`YYYY-MM-DD`). -/
def strLe : Str → Str → Bool
  | [], _ => true
  | _ :: _, [] => false
  | a :: as, b :: bs => if a = b then strLe as bs else decide (a < b)

/-- A full row of `meal_plan_entries` (the columns the generator's query
filters on or selects). -/
structure StoreEntryRow where
  meal_plan_id : Str
  recipe_id : Option Str
  meal_date : Str
  servings : ℚ
  deriving DecidableEq, Repr, Inhabited

/-- A full row of `recipe_ingredients` (with its `recipe_id` column). -/
structure StoreIngRow where
  recipe_id : Str
  ingredient_name : Str
  quantity : Option ℚ
  unit : Str
  deriving DecidableEq, Repr, Inhabited

/-- The tables the generator reads. -/
structure Store where
  meal_plan_entries : List StoreEntryRow
  recipe_ingredients : List StoreIngRow
  deriving Repr

/-- Whether a `meal_plan_entries` row matches the query of lines 16-21:
`.eq("meal_plan_id", mealPlanId).gte("meal_date", startDate)
.lte("meal_date", endDate)` — the plan matches and
`startDate ≤ meal_date ≤ endDate`, inclusive on both ends. -/
def entryMatches (mealPlanId startDate endDate : Str)
    (r : StoreEntryRow) : Bool :=
  decide (r.meal_plan_id = mealPlanId) && strLe startDate r.meal_date &&
    strLe r.meal_date endDate

/-- The store's answer to the entries query of lines 16-21: the matching
rows, projected to the selected columns `recipe_id, servings`. -/
def queryEntriesImpl (st : Store) (mealPlanId startDate endDate : Str) :
    List EntryRow :=
  (st.meal_plan_entries.filter (entryMatches mealPlanId startDate endDate)).map
    fun r => { recipe_id := r.recipe_id, servings := r.servings }

/-- The store's answer to the ingredients query of lines 30-34:
rows with the given `recipe_id`, projected to
`ingredient_name, quantity, unit`. -/
def queryIngredientsImpl (st : Store) (rid : Str) : List RecipeIngredient :=
  (st.recipe_ingredients.filter fun r => decide (r.recipe_id = rid)).map
    fun r => { ingredient_name := r.ingredient_name, quantity := r.quantity
               unit := r.unit }

/-- A client over a concrete store whose reads and writes all succeed. -/
def dbOfStore (st : Store) (user : Option Str) (newListId : Str) : DbClient :=
  { user := user
    queryEntries := fun pid s e => Except.ok (queryEntriesImpl st pid s e)
    queryIngredients := fun rid => Except.ok (queryIngredientsImpl st rid)
    insertShoppingList := fun _ => Except.ok newListId
    insertItems := fun _ _ => Except.ok () }

/-! ## Derived notions used to state properties -/

/-- The aggregation loop started from an arbitrary accumulator (the loop of
lines 27-49 with `ingredients` pre-populated); `aggregateEntries` is this
with the empty initial object of line 25. -/
def aggregateFrom (fetch : Str → List RecipeIngredient)
    (entries : List EntryRow) (acc : List (Str × AggVal)) :
    List (Str × AggVal) :=
  entries.foldl
    (fun a e =>
      match e.recipe_id with
      | none => a
      | some rid => processIngredients e.servings (fetch rid) a)
    acc

/-- The ingredient lists a client answers with on its successful reads
(irrelevant default on a failing read; only used on success paths). -/
def fetchOf (db : DbClient) (rid : Str) : List RecipeIngredient :=
  match db.queryIngredients rid with
  | Except.ok l => l
  | Except.error _ => []

/-- Whether a store operation writes (inserts) anything. -/
def DbOp.isWrite : DbOp → Bool
  | DbOp.writeList _ => true
  | DbOp.writeItems _ _ => true
  | _ => false

/-- Whether a store operation inserts a `shopping_lists` row. -/
def DbOp.isListInsert : DbOp → Bool
  | DbOp.writeList _ => true
  | _ => false

/-- All shopping-list items inserted over a log of store operations. -/
def itemsWritten : List DbOp → List ShoppingItem
  | [] => []
  | DbOp.writeItems _ items :: rest => items ++ itemsWritten rest
  | _ :: rest => itemsWritten rest

/-- The longest prefix of a string containing no `'|'`: what lies before
the first `'|'` (the whole string if there is none). -/
def beforeBar (s : Str) : Str :=
  s.takeWhile fun c => decide (c ≠ '|')

/-! ## String lemmas -/

theorem splitBar_ne_nil (s : Str) : splitBar s ≠ [] := by
  cases s with
  | nil => simp [splitBar]
  | cons c rest =>
    simp only [splitBar]
    cases splitBar rest with
    | nil => simp
    | cons a as => by_cases hc : c = '|' <;> simp [hc]

theorem takeWhile_append_mid {p : Char → Bool} (n u : Str) (c : Char)
    (hp : p c = false) :
    List.takeWhile p (n ++ c :: u) = List.takeWhile p n := by
  induction n with
  | nil => simp [List.takeWhile_cons, hp]
  | cons d n' ih =>
    rw [List.cons_append, List.takeWhile_cons, List.takeWhile_cons, ih]

theorem splitBar_headD (s : Str) : (splitBar s).headD [] = beforeBar s := by
  induction s with
  | nil => rfl
  | cons c rest ih =>
    simp only [splitBar, beforeBar, List.takeWhile_cons]
    cases h : splitBar rest with
    | nil => exact absurd h (splitBar_ne_nil rest)
    | cons a as =>
      by_cases hc : c = '|'
      · subst hc; simp
      · rw [h] at ih
        simp only [List.headD] at ih
        simp [hc, ih, beforeBar]

theorem beforeBar_append_bar (n u : Str) :
    beforeBar (n ++ '|' :: u) = beforeBar n :=
  takeWhile_append_mid n u '|' (by simp)

theorem bar_not_mem_beforeBar (s : Str) : '|' ∉ beforeBar s := by
  intro h
  have := List.mem_takeWhile_imp h
  simp at this

theorem splitBar_append_bar (n u : Str) (h : '|' ∉ n) :
    splitBar (n ++ '|' :: u) = n :: splitBar u := by
  induction n with
  | nil =>
    simp only [List.nil_append, splitBar]
    cases hsb : splitBar u with
    | nil => exact absurd hsb (splitBar_ne_nil u)
    | cons a as => simp
  | cons c n' ih =>
    have hc : c ≠ '|' := by
      intro hcc; exact h (hcc ▸ List.mem_cons_self c n')
    have h' : '|' ∉ n' := fun hm => h (List.mem_cons_of_mem c hm)
    have hdef : splitBar (c :: (n' ++ '|' :: u)) =
        match splitBar (n' ++ '|' :: u) with
        | [] => [[]]
        | s :: ss => if c = '|' then [] :: s :: ss else (c :: s) :: ss := rfl
    rw [List.cons_append, hdef, ih h']
    simp [hc]

theorem mkKey_inj {n1 u1 n2 u2 : Str} (h1 : '|' ∉ n1) (h2 : '|' ∉ n2)
    (h : mkKey n1 u1 = mkKey n2 u2) : n1 = n2 ∧ u1 = u2 := by
  induction n1 generalizing n2 with
  | nil =>
    cases n2 with
    | nil => simpa [mkKey] using h
    | cons d n2' =>
      simp only [mkKey, List.nil_append, List.cons_append, List.cons.injEq] at h
      exact absurd (h.1 ▸ List.mem_cons_self d n2') h2
  | cons c n1' ih =>
    cases n2 with
    | nil =>
      simp only [mkKey, List.nil_append, List.cons_append, List.cons.injEq] at h
      exact absurd (h.1.symm ▸ List.mem_cons_self c n1') h1
    | cons d n2' =>
      have hc : '|' ∉ n1' := fun hm => h1 (List.mem_cons_of_mem c hm)
      have hd : '|' ∉ n2' := fun hm => h2 (List.mem_cons_of_mem d hm)
      simp only [mkKey, List.cons_append, List.cons.injEq] at h
      obtain ⟨hcd, h'⟩ := h
      obtain ⟨hn, hu⟩ := ih hc hd h'
      exact ⟨by rw [hcd, hn], hu⟩

theorem beforeBar_of_not_mem {s : Str} (h : '|' ∉ s) : beforeBar s = s := by
  induction s with
  | nil => rfl
  | cons c rest ih =>
    have hc : c ≠ '|' := fun hcc => h (hcc ▸ List.mem_cons_self c rest)
    have h' : '|' ∉ rest := fun hm => h (List.mem_cons_of_mem c hm)
    simp [beforeBar, List.takeWhile_cons, hc] at *
    exact ih h'

theorem splitBar_headD_mkKey (n u : Str) (h : '|' ∉ n) :
    (splitBar (mkKey n u)).headD [] = n := by
  rw [mkKey, splitBar_append_bar n u h]
  rfl

/-! ## Association-list lemmas for the `ingredients` accumulator -/

theorem findVal_nil (k : Str) : findVal k [] = none := rfl

theorem findVal_cons (k : Str) (kv : Str × AggVal) (acc : List (Str × AggVal)) :
    findVal k (kv :: acc) = if kv.1 = k then some kv.2 else findVal k acc := by
  simp only [findVal, List.find?_cons]
  by_cases h : kv.1 = k <;> simp [h]

theorem insertIngredient_nil (key u : Str) (q : ℚ) :
    insertIngredient key u q [] = [(key, ⟨q, u⟩)] := rfl

theorem insertIngredient_cons_self {k0 key : Str} (u : Str) (q : ℚ)
    (v0 : AggVal) (rest : List (Str × AggVal)) (h : k0 = key) :
    insertIngredient key u q ((k0, v0) :: rest) =
      (k0, ⟨v0.quantity + q, v0.unit⟩) :: rest := by
  simp [insertIngredient, h]

theorem insertIngredient_cons_ne {k0 key : Str} (u : Str) (q : ℚ)
    (v0 : AggVal) (rest : List (Str × AggVal)) (h : k0 ≠ key) :
    insertIngredient key u q ((k0, v0) :: rest) =
      (k0, v0) :: insertIngredient key u q rest := by
  simp [insertIngredient, h]

theorem findVal_insert_present {key : Str} {acc : List (Str × AggVal)}
    {v : AggVal} (u : Str) (q : ℚ) (h : findVal key acc = some v) :
    findVal key (insertIngredient key u q acc) =
      some ⟨v.quantity + q, v.unit⟩ := by
  induction acc with
  | nil => simp [findVal_nil] at h
  | cons kv rest ih =>
    obtain ⟨k', v'⟩ := kv
    rw [findVal_cons] at h
    by_cases hk : k' = key
    · rw [if_pos hk] at h
      obtain rfl : v' = v := Option.some.inj h
      rw [insertIngredient_cons_self u q v' rest hk, findVal_cons, if_pos hk]
    · rw [if_neg hk] at h
      rw [insertIngredient_cons_ne u q v' rest hk, findVal_cons, if_neg hk]
      exact ih h

theorem findVal_insert_absent {key : Str} {acc : List (Str × AggVal)}
    (u : Str) (q : ℚ) (h : findVal key acc = none) :
    findVal key (insertIngredient key u q acc) = some ⟨q, u⟩ := by
  induction acc with
  | nil => rw [insertIngredient_nil, findVal_cons, if_pos rfl]
  | cons kv rest ih =>
    obtain ⟨k', v'⟩ := kv
    rw [findVal_cons] at h
    by_cases hk : k' = key
    · rw [if_pos hk] at h; exact absurd h (by simp)
    · rw [if_neg hk] at h
      rw [insertIngredient_cons_ne u q v' rest hk, findVal_cons, if_neg hk]
      exact ih h

theorem findVal_insert_ne {k' key : Str} (u : Str) (q : ℚ)
    (acc : List (Str × AggVal)) (h : k' ≠ key) :
    findVal k' (insertIngredient key u q acc) = findVal k' acc := by
  induction acc with
  | nil =>
    rw [insertIngredient_nil, findVal_cons, if_neg (Ne.symm h), findVal_nil]
  | cons kv rest ih =>
    obtain ⟨k0, v0⟩ := kv
    by_cases hk : k0 = key
    · have hne : k0 ≠ k' := by rw [hk]; exact Ne.symm h
      rw [insertIngredient_cons_self u q v0 rest hk, findVal_cons, findVal_cons]
      simp [hne]
    · rw [insertIngredient_cons_ne u q v0 rest hk, findVal_cons, findVal_cons,
        ih]

theorem keys_insertIngredient (key : Str) (u : Str) (q : ℚ)
    (acc : List (Str × AggVal)) :
    (insertIngredient key u q acc).map Prod.fst =
      if key ∈ acc.map Prod.fst then acc.map Prod.fst
      else acc.map Prod.fst ++ [key] := by
  induction acc with
  | nil => simp [insertIngredient_nil]
  | cons kv rest ih =>
    obtain ⟨k0, v0⟩ := kv
    by_cases hk : k0 = key
    · rw [insertIngredient_cons_self u q v0 rest hk]
      simp [hk]
    · rw [insertIngredient_cons_ne u q v0 rest hk]
      simp only [List.map_cons, ih, List.mem_cons]
      by_cases hmem : key ∈ rest.map Prod.fst
      · simp [hmem, Ne.symm hk]
      · simp [hmem, Ne.symm hk]

theorem nodup_keys_insertIngredient {acc : List (Str × AggVal)}
    (key : Str) (u : Str) (q : ℚ) (h : (acc.map Prod.fst).Nodup) :
    ((insertIngredient key u q acc).map Prod.fst).Nodup := by
  rw [keys_insertIngredient]
  by_cases hmem : key ∈ acc.map Prod.fst
  · simpa [hmem] using h
  · simp only [if_neg hmem]
    rw [List.nodup_append]
    exact ⟨h, List.nodup_singleton key, by simpa using hmem⟩

/-! ## The aggregation invariant -/

theorem aggTuples_nil (acc : List (Str × AggVal)) : aggTuples [] acc = acc := rfl

theorem aggTuples_cons (t : ℚ × RecipeIngredient)
    (ts : List (ℚ × RecipeIngredient)) (acc : List (Str × AggVal)) :
    aggTuples (t :: ts) acc = aggTuples ts (aggStep acc t) := rfl

theorem keySum_nil (k : Str) : keySum k [] = 0 := rfl

theorem keySum_cons_self {t : ℚ × RecipeIngredient} {k : Str}
    (ts : List (ℚ × RecipeIngredient))
    (h : mkKey t.2.ingredient_name t.2.unit = k) :
    keySum k (t :: ts) = contrib t + keySum k ts := by
  simp [keySum, List.filter_cons, h]

theorem keySum_cons_ne {t : ℚ × RecipeIngredient} {k : Str}
    (ts : List (ℚ × RecipeIngredient))
    (h : mkKey t.2.ingredient_name t.2.unit ≠ k) :
    keySum k (t :: ts) = keySum k ts := by
  simp [keySum, List.filter_cons, h]

theorem findVal_aggTuples (ts : List (ℚ × RecipeIngredient))
    (acc : List (Str × AggVal)) (k : Str) :
    findVal k (aggTuples ts acc) =
      match findVal k acc with
      | some v => some ⟨v.quantity + keySum k ts, v.unit⟩
      | none =>
        (ts.find? fun t =>
            decide (mkKey t.2.ingredient_name t.2.unit = k)).map
          fun t => ⟨keySum k ts, t.2.unit⟩ := by
  induction ts generalizing acc with
  | nil =>
    rw [aggTuples_nil, keySum_nil]
    cases h : findVal k acc with
    | none => simp
    | some v => simp
  | cons t ts ih =>
    rw [aggTuples_cons]
    by_cases hk : mkKey t.2.ingredient_name t.2.unit = k
    · rw [keySum_cons_self ts hk]
      have hstep : aggStep acc t =
          insertIngredient k t.2.unit (contrib t) acc := by
        rw [aggStep, hk]; rfl
      cases h : findVal k acc with
      | some v =>
        have h2 : findVal k (aggStep acc t) =
            some ⟨v.quantity + contrib t, v.unit⟩ := by
          rw [hstep]; exact findVal_insert_present _ _ h
        rw [ih, h2]
        simp [add_assoc]
      | none =>
        have h2 : findVal k (aggStep acc t) = some ⟨contrib t, t.2.unit⟩ := by
          rw [hstep]; exact findVal_insert_absent _ _ h
        rw [ih, h2]
        simp [List.find?_cons, hk]
    · rw [keySum_cons_ne ts hk]
      have h2 : findVal k (aggStep acc t) = findVal k acc := by
        rw [aggStep]
        exact findVal_insert_ne _ _ acc (Ne.symm hk)
      rw [ih, h2]
      cases h : findVal k acc with
      | some v => simp
      | none => simp [List.find?_cons, hk]

theorem nodup_keys_aggTuples (ts : List (ℚ × RecipeIngredient))
    (acc : List (Str × AggVal)) (h : (acc.map Prod.fst).Nodup) :
    ((aggTuples ts acc).map Prod.fst).Nodup := by
  induction ts generalizing acc with
  | nil => exact h
  | cons t ts ih =>
    rw [aggTuples_cons]
    exact ih _ (nodup_keys_insertIngredient _ _ _ h)

theorem findVal_eq_some_of_mem {acc : List (Str × AggVal)} {k : Str}
    {v : AggVal} (hnd : (acc.map Prod.fst).Nodup) (hm : (k, v) ∈ acc) :
    findVal k acc = some v := by
  induction acc with
  | nil => simp at hm
  | cons kv rest ih =>
    obtain ⟨k0, v0⟩ := kv
    rw [List.map_cons, List.nodup_cons] at hnd
    rcases List.mem_cons.mp hm with heq | hrest
    · obtain ⟨rfl, rfl⟩ := Prod.mk.inj heq.symm
      rw [findVal_cons, if_pos rfl]
    · have hk : k0 ≠ k := by
        intro hc
        subst hc
        exact hnd.1 (List.mem_map.mpr ⟨(k0, v), hrest, rfl⟩)
      rw [findVal_cons, if_neg hk]
      exact ih hnd.2 hrest

theorem mem_of_findVal {acc : List (Str × AggVal)} {k : Str} {v : AggVal}
    (h : findVal k acc = some v) : (k, v) ∈ acc := by
  rw [findVal] at h
  cases hf : acc.find? fun kv => decide (kv.1 = k) with
  | none => rw [hf] at h; exact Option.noConfusion h
  | some kv =>
    rw [hf] at h
    have hp := List.find?_some hf
    have hmem := List.mem_of_find?_eq_some hf
    simp only [decide_eq_true_eq] at hp
    simp only [Option.map_some', Option.some.injEq] at h
    rw [← hp, ← h]
    exact hmem

/-- Every bucket of the aggregation of `ts` (started from the empty object)
is keyed by the `name|unit` key of its first contributing tuple, stores the
unit of that tuple, and its quantity is the sum of the contributions of all
tuples sharing the key. -/
theorem agg_mem_spec {ts : List (ℚ × RecipeIngredient)}
    {kv : Str × AggVal} (h : kv ∈ aggTuples ts []) :
    ∃ t, (ts.find? fun tt =>
        decide (mkKey tt.2.ingredient_name tt.2.unit = kv.1)) = some t ∧
      t ∈ ts ∧ mkKey t.2.ingredient_name t.2.unit = kv.1 ∧
      kv.2 = ⟨keySum kv.1 ts, t.2.unit⟩ := by
  have hnd : ((aggTuples ts []).map Prod.fst).Nodup :=
    nodup_keys_aggTuples ts [] (by simp)
  have hfv : findVal kv.1 (aggTuples ts []) = some kv.2 :=
    findVal_eq_some_of_mem hnd h
  rw [findVal_aggTuples, findVal_nil] at hfv
  cases hf : ts.find? fun t =>
      decide (mkKey t.2.ingredient_name t.2.unit = kv.1) with
  | none => rw [hf] at hfv; exact Option.noConfusion hfv
  | some t =>
    rw [hf] at hfv
    simp only [Option.map_some', Option.some.injEq] at hfv
    have hp := List.find?_some hf
    simp only [decide_eq_true_eq] at hp
    exact ⟨t, rfl, List.mem_of_find?_eq_some hf, hp, hfv.symm⟩

/-! ## Relating the nested loop to the flat tuple list -/

theorem processIngredients_eq_aggTuples (s : ℚ) (ings : List RecipeIngredient)
    (acc : List (Str × AggVal)) :
    processIngredients s ings acc =
      aggTuples (ings.map fun ing => (s, ing)) acc := by
  rw [processIngredients, aggTuples, List.foldl_map]
  rfl

theorem aggregateFrom_cons (fetch : Str → List RecipeIngredient)
    (e : EntryRow) (rest : List EntryRow) (acc : List (Str × AggVal)) :
    aggregateFrom fetch (e :: rest) acc =
      aggregateFrom fetch rest
        (match e.recipe_id with
         | none => acc
         | some rid => processIngredients e.servings (fetch rid) acc) := rfl

theorem aggTuples_append (l1 l2 : List (ℚ × RecipeIngredient))
    (acc : List (Str × AggVal)) :
    aggTuples (l1 ++ l2) acc = aggTuples l2 (aggTuples l1 acc) := by
  rw [aggTuples, aggTuples, aggTuples, List.foldl_append]

theorem aggregateFrom_eq_aggTuples (fetch : Str → List RecipeIngredient)
    (entries : List EntryRow) (acc : List (Str × AggVal)) :
    aggregateFrom fetch entries acc =
      aggTuples (tuplesOfEntries fetch entries) acc := by
  induction entries generalizing acc with
  | nil => rfl
  | cons e rest ih =>
    rw [aggregateFrom_cons, tuplesOfEntries, aggTuples_append]
    cases he : e.recipe_id with
    | none => rw [ih]; rfl
    | some rid =>
      rw [ih]
      dsimp only
      rw [processIngredients_eq_aggTuples]

theorem aggregateEntries_eq_aggTuples (fetch : Str → List RecipeIngredient)
    (entries : List EntryRow) :
    aggregateEntries fetch entries =
      aggTuples (tuplesOfEntries fetch entries) [] :=
  aggregateFrom_eq_aggTuples fetch entries []

/-! ## Consequences when no ingredient name contains the separator -/

theorem keySum_eq_specContribution {ts : List (ℚ × RecipeIngredient)}
    (hbar : ∀ t ∈ ts, '|' ∉ t.2.ingredient_name)
    {n u : Str} (hn : '|' ∉ n) :
    keySum (mkKey n u) ts = specContribution ts n u := by
  have hfil : (ts.filter fun t =>
        decide (mkKey t.2.ingredient_name t.2.unit = mkKey n u)) =
      ts.filter fun t =>
        decide (t.2.ingredient_name = n) && decide (t.2.unit = u) := by
    apply List.filter_congr
    intro t ht
    have hb := hbar t ht
    by_cases h1 : t.2.ingredient_name = n
    · by_cases h2 : t.2.unit = u
      · simp [h1, h2]
      · have hne : mkKey t.2.ingredient_name t.2.unit ≠ mkKey n u := by
          intro hk
          exact h2 (mkKey_inj hb hn hk).2
        simp [hne, h2]
    · have hne : mkKey t.2.ingredient_name t.2.unit ≠ mkKey n u := by
        intro hk
        exact h1 (mkKey_inj hb hn hk).1
      simp [hne, h1]
  rw [keySum, specContribution, hfil]

/-- Bucket contents seen through `toItem`, when no contributing ingredient
name contains the separator: the item carries the (first) contributing
ingredient name and unit verbatim, its key is exactly
`mkKey product_name unit`, and its quantity is the key total. -/
theorem agg_item_spec {ts : List (ℚ × RecipeIngredient)}
    {kv : Str × AggVal}
    (hbar : ∀ t ∈ ts, '|' ∉ t.2.ingredient_name)
    (h : kv ∈ aggTuples ts []) :
    ∃ t ∈ ts, kv.1 = mkKey (toItem kv).product_name (toItem kv).unit ∧
      (toItem kv).product_name = t.2.ingredient_name ∧
      (toItem kv).unit = t.2.unit ∧
      (toItem kv).quantity = keySum kv.1 ts ∧
      '|' ∉ (toItem kv).product_name := by
  obtain ⟨t, _, htmem, hkey, hval⟩ := agg_mem_spec h
  have hbn := hbar t htmem
  have hname : (toItem kv).product_name = t.2.ingredient_name := by
    show (splitBar kv.1).headD [] = t.2.ingredient_name
    rw [← hkey, splitBar_headD_mkKey _ _ hbn]
  have hunit : (toItem kv).unit = t.2.unit := by
    show kv.2.unit = t.2.unit
    rw [hval]
  have hq : (toItem kv).quantity = keySum kv.1 ts := by
    show kv.2.quantity = keySum kv.1 ts
    rw [hval]
  exact ⟨t, htmem, by rw [hname, hunit, hkey], hname, hunit, hq,
    hname ▸ hbn⟩

/-! ## Lemmas about the materializer -/

theorem fetchLoop_nil (db : DbClient) (acc : List (Str × AggVal)) :
    fetchLoop db [] acc = (Except.ok acc, []) := rfl

theorem fetchLoop_cons (db : DbClient) (e : EntryRow) (rest : List EntryRow)
    (acc : List (Str × AggVal)) :
    fetchLoop db (e :: rest) acc =
      match e.recipe_id with
      | none => fetchLoop db rest acc
      | some rid =>
        match db.queryIngredients rid with
        | Except.error m => (Except.error m, [DbOp.readIngredients rid])
        | Except.ok ings =>
          let res :=
            fetchLoop db rest (processIngredients e.servings ings acc)
          (res.1, DbOp.readIngredients rid :: res.2) := rfl

theorem fetchLoop_reads_only (db : DbClient) (entries : List EntryRow)
    (acc : List (Str × AggVal)) (op : DbOp)
    (h : op ∈ (fetchLoop db entries acc).2) :
    ∃ rid, op = DbOp.readIngredients rid := by
  induction entries generalizing acc with
  | nil => rw [fetchLoop_nil] at h; simp at h
  | cons e rest ih =>
    rw [fetchLoop_cons] at h
    cases he : e.recipe_id with
    | none => rw [he] at h; exact ih acc h
    | some rid =>
      rw [he] at h
      dsimp only at h
      cases hq : db.queryIngredients rid with
      | error m =>
        rw [hq] at h
        simp only [List.mem_singleton] at h
        exact ⟨rid, h⟩
      | ok ings =>
        rw [hq] at h
        dsimp only at h
        simp only [List.mem_cons] at h
        rcases h with h | h
        · exact ⟨rid, h⟩
        · exact ih _ h

theorem fetchLoop_read_error (db : DbClient) {rid : Str} {m : Str}
    (hq : db.queryIngredients rid = Except.error m)
    (entries : List EntryRow) (acc : List (Str × AggVal))
    (h : DbOp.readIngredients rid ∈ (fetchLoop db entries acc).2) :
    (fetchLoop db entries acc).1 = Except.error m := by
  induction entries generalizing acc with
  | nil => rw [fetchLoop_nil] at h; simp at h
  | cons e rest ih =>
    rw [fetchLoop_cons] at h ⊢
    cases he : e.recipe_id with
    | none => rw [he] at h; exact ih acc h
    | some rid2 =>
      rw [he] at h
      dsimp only at h ⊢
      cases hq2 : db.queryIngredients rid2 with
      | error m2 =>
        rw [hq2] at h
        dsimp only
        simp only [List.mem_singleton, DbOp.readIngredients.injEq] at h
        subst h
        rw [hq] at hq2
        rw [Except.error.inj hq2]
      | ok ings =>
        rw [hq2] at h
        dsimp only at h ⊢
        simp only [List.mem_cons, DbOp.readIngredients.injEq] at h
        rcases h with h | h
        · subst h; rw [hq] at hq2; exact Except.noConfusion hq2
        · exact ih _ h

theorem fetchLoop_ok_eq (db : DbClient) (entries : List EntryRow)
    (acc : List (Str × AggVal)) (res : List (Str × AggVal))
    (ops : List DbOp) (h : fetchLoop db entries acc = (Except.ok res, ops)) :
    res = aggregateFrom (fetchOf db) entries acc := by
  induction entries generalizing acc res ops with
  | nil =>
    rw [fetchLoop_nil] at h
    obtain ⟨h1, _⟩ := Prod.mk.inj h
    exact (Except.ok.inj h1).symm
  | cons e rest ih =>
    rw [fetchLoop_cons] at h
    rw [aggregateFrom_cons]
    cases he : e.recipe_id with
    | none => rw [he] at h; exact ih _ _ _ h
    | some rid =>
      rw [he] at h
      dsimp only at h ⊢
      cases hq : db.queryIngredients rid with
      | error m =>
        rw [hq] at h
        exact absurd (Prod.mk.inj h).1 (by simp)
      | ok ings =>
        rw [hq] at h
        dsimp only at h
        have hfetch : fetchOf db rid = ings := by
          rw [fetchOf, hq]
        cases hrec : fetchLoop db rest (processIngredients e.servings ings acc)
          with
        | mk r2 ops2 =>
          rw [hrec] at h
          obtain ⟨h1, _⟩ := Prod.mk.inj h
          dsimp only at h1
          rw [hfetch]
          exact ih _ _ _ (by rw [hrec, h1])

theorem fetchLoop_congr {db1 db2 : DbClient}
    (hi : db1.queryIngredients = db2.queryIngredients)
    (entries : List EntryRow) (acc : List (Str × AggVal)) :
    fetchLoop db1 entries acc = fetchLoop db2 entries acc := by
  induction entries generalizing acc with
  | nil => rw [fetchLoop_nil, fetchLoop_nil]
  | cons e rest ih =>
    rw [fetchLoop_cons, fetchLoop_cons, hi]
    cases he : e.recipe_id with
    | none => exact ih acc
    | some rid =>
      dsimp only
      cases hq : db2.queryIngredients rid with
      | error m => rfl
      | ok ings => dsimp only; rw [ih]

theorem generate_user_none (db : DbClient) (p s e : Str)
    (hu : db.user = none) :
    generateShoppingList db p s e =
      (Except.error GenError.notAuthenticated, [DbOp.readUser]) := by
  unfold generateShoppingList
  rw [hu]

theorem generate_entries_error (db : DbClient) (p s e uid m : Str)
    (hu : db.user = some uid) (hq : db.queryEntries p s e = Except.error m) :
    generateShoppingList db p s e =
      (Except.error (GenError.dbError m),
       [DbOp.readUser, DbOp.readEntries p s e]) := by
  unfold generateShoppingList
  rw [hu]
  dsimp only
  rw [hq]

theorem generate_fetch_error (db : DbClient) (p s e uid m : Str)
    (entries : List EntryRow) (ops : List DbOp)
    (hu : db.user = some uid) (hq : db.queryEntries p s e = Except.ok entries)
    (hf : fetchLoop db entries [] = (Except.error m, ops)) :
    generateShoppingList db p s e =
      (Except.error (GenError.dbError m),
       [DbOp.readUser, DbOp.readEntries p s e] ++ ops) := by
  unfold generateShoppingList
  rw [hu]
  dsimp only
  rw [hq]
  dsimp only
  rw [hf]

theorem generate_insert_error (db : DbClient) (p s e uid m : Str)
    (entries : List EntryRow) (acc : List (Str × AggVal)) (ops : List DbOp)
    (hu : db.user = some uid) (hq : db.queryEntries p s e = Except.ok entries)
    (hf : fetchLoop db entries [] = (Except.ok acc, ops))
    (hins : db.insertShoppingList
        { user_id := uid, meal_plan_id := p, name := listName s e } =
      Except.error m) :
    generateShoppingList db p s e =
      (Except.error (GenError.dbError m),
       [DbOp.readUser, DbOp.readEntries p s e] ++ ops ++
         [DbOp.writeList
           { user_id := uid, meal_plan_id := p, name := listName s e }]) := by
  unfold generateShoppingList
  rw [hu]
  dsimp only
  rw [hq]
  dsimp only
  rw [hf]
  dsimp only
  rw [hins]

theorem generate_items_error (db : DbClient) (p s e uid lid m : Str)
    (entries : List EntryRow) (acc : List (Str × AggVal)) (ops : List DbOp)
    (hu : db.user = some uid) (hq : db.queryEntries p s e = Except.ok entries)
    (hf : fetchLoop db entries [] = (Except.ok acc, ops))
    (hins : db.insertShoppingList
        { user_id := uid, meal_plan_id := p, name := listName s e } =
      Except.ok lid)
    (hit : db.insertItems lid (acc.map toItem) = Except.error m) :
    generateShoppingList db p s e =
      (Except.error (GenError.dbError m),
       ([DbOp.readUser, DbOp.readEntries p s e] ++ ops ++
          [DbOp.writeList
            { user_id := uid, meal_plan_id := p, name := listName s e }]) ++
         [DbOp.writeItems lid (acc.map toItem)]) := by
  unfold generateShoppingList
  rw [hu]
  dsimp only
  rw [hq]
  dsimp only
  rw [hf]
  dsimp only
  rw [hins]
  dsimp only
  rw [hit]

theorem generate_ok_full (db : DbClient) (p s e uid lid : Str)
    (entries : List EntryRow) (acc : List (Str × AggVal)) (ops : List DbOp)
    (hu : db.user = some uid) (hq : db.queryEntries p s e = Except.ok entries)
    (hf : fetchLoop db entries [] = (Except.ok acc, ops))
    (hins : db.insertShoppingList
        { user_id := uid, meal_plan_id := p, name := listName s e } =
      Except.ok lid)
    (hit : db.insertItems lid (acc.map toItem) = Except.ok ()) :
    generateShoppingList db p s e =
      (Except.ok { listId := lid, itemCount := (acc.map toItem).length },
       ([DbOp.readUser, DbOp.readEntries p s e] ++ ops ++
          [DbOp.writeList
            { user_id := uid, meal_plan_id := p, name := listName s e }]) ++
         [DbOp.writeItems lid (acc.map toItem)]) := by
  unfold generateShoppingList
  rw [hu]
  dsimp only
  rw [hq]
  dsimp only
  rw [hf]
  dsimp only
  rw [hins]
  dsimp only
  rw [hit]

/-- Success-path characterization of `generateShoppingList`: on success,
the user was authenticated, the entries read and all ingredient reads
succeeded, the aggregated items are those of the pure aggregator over the
fetched data, and the full log consists of the auth lookup, the entries
read, the ingredient reads, one list insert and one bulk item insert. -/
theorem generate_ok_spec {db : DbClient} {p s e : Str} {r : GenResult}
    (h : (generateShoppingList db p s e).1 = Except.ok r) :
    ∃ uid entries acc ops,
      db.user = some uid ∧
      db.queryEntries p s e = Except.ok entries ∧
      fetchLoop db entries [] = (Except.ok acc, ops) ∧
      acc = aggregateEntries (fetchOf db) entries ∧
      db.insertShoppingList
          { user_id := uid, meal_plan_id := p, name := listName s e } =
        Except.ok r.listId ∧
      r.itemCount = (shoppingItemsOf (fetchOf db) entries).length ∧
      generateShoppingList db p s e =
        (Except.ok r,
         ([DbOp.readUser, DbOp.readEntries p s e] ++ ops ++
            [DbOp.writeList
              { user_id := uid, meal_plan_id := p, name := listName s e }]) ++
           [DbOp.writeItems r.listId
             (shoppingItemsOf (fetchOf db) entries)]) := by
  cases hu : db.user with
  | none =>
    rw [generate_user_none db p s e hu] at h
    exact absurd h (by simp)
  | some uid =>
    cases hq : db.queryEntries p s e with
    | error m =>
      rw [generate_entries_error db p s e uid m hu hq] at h
      exact absurd h (by simp)
    | ok entries =>
      cases hfl : fetchLoop db entries [] with
      | mk res1 ops =>
        cases res1 with
        | error m =>
          rw [generate_fetch_error db p s e uid m entries ops hu hq hfl] at h
          exact absurd h (by simp)
        | ok acc =>
          cases hins : db.insertShoppingList
              { user_id := uid, meal_plan_id := p, name := listName s e } with
          | error m =>
            rw [generate_insert_error db p s e uid m entries acc ops hu hq
              hfl hins] at h
            exact absurd h (by simp)
          | ok lid =>
            cases hit : db.insertItems lid (acc.map toItem) with
            | error m =>
              rw [generate_items_error db p s e uid lid m entries acc ops hu
                hq hfl hins hit] at h
              exact absurd h (by simp)
            | ok uval =>
              obtain rfl : uval = () := rfl
              have hgen := generate_ok_full db p s e uid lid entries acc ops
                hu hq hfl hins hit
              have hacc : acc = aggregateEntries (fetchOf db) entries :=
                fetchLoop_ok_eq db entries [] acc ops hfl
              have hr : r = { listId := lid
                              itemCount := (acc.map toItem).length } := by
                rw [hgen] at h
                exact (Except.ok.inj h).symm
              refine ⟨uid, entries, acc, ops, rfl, rfl, hfl, hacc, ?_, ?_, ?_⟩
              · rw [hr]; exact hins
              · rw [hr, shoppingItemsOf, ← hacc]
              · rw [hgen, hr, shoppingItemsOf, ← hacc]

theorem itemsWritten_nil : itemsWritten [] = [] := rfl

theorem itemsWritten_cons (op : DbOp) (rest : List DbOp) :
    itemsWritten (op :: rest) =
      (match op with
       | DbOp.writeItems _ items => items
       | _ => []) ++ itemsWritten rest := by
  cases op <;> rfl

theorem itemsWritten_append (l1 l2 : List DbOp) :
    itemsWritten (l1 ++ l2) = itemsWritten l1 ++ itemsWritten l2 := by
  induction l1 with
  | nil => rfl
  | cons op rest ih =>
    rw [List.cons_append, itemsWritten_cons, itemsWritten_cons, ih,
      List.append_assoc]

theorem itemsWritten_reads {ops : List DbOp}
    (h : ∀ op ∈ ops, ∃ rid, op = DbOp.readIngredients rid) :
    itemsWritten ops = [] := by
  induction ops with
  | nil => rfl
  | cons op rest ih =>
    obtain ⟨rid, hop⟩ := h op (List.mem_cons_self op rest)
    subst hop
    rw [itemsWritten_cons, List.nil_append]
    exact ih fun o ho => h o (List.mem_cons_of_mem _ ho)

theorem mem_tuplesOfEntries {fetch : Str → List RecipeIngredient}
    {entries : List EntryRow} {t : ℚ × RecipeIngredient}
    (h : t ∈ tuplesOfEntries fetch entries) :
    ∃ en ∈ entries, ∃ rid, en.recipe_id = some rid ∧ t.2 ∈ fetch rid ∧
      t.1 = en.servings := by
  induction entries with
  | nil => simp [tuplesOfEntries] at h
  | cons e rest ih =>
    rw [tuplesOfEntries, List.mem_append] at h
    rcases h with h | h
    · cases he : e.recipe_id with
      | none => rw [he] at h; simp at h
      | some rid =>
        rw [he] at h
        simp only [List.mem_map] at h
        obtain ⟨ing, hing, ht⟩ := h
        refine ⟨e, List.mem_cons_self e rest, rid, he, ?_, ?_⟩
        · rw [← ht]; exact hing
        · rw [← ht]
    · obtain ⟨en, hen, rid, hrid, hmem, hserv⟩ := ih h
      exact ⟨en, List.mem_cons_of_mem _ hen, rid, hrid, hmem, hserv⟩

/-- Under separator-free ingredient names, distinct aggregation buckets
yield items with distinct (product name, unit) pairs. -/
theorem agg_nodup_pairs (ts : List (ℚ × RecipeIngredient))
    (hbar : ∀ t ∈ ts, '|' ∉ t.2.ingredient_name) :
    (((aggTuples ts []).map toItem).map
      fun i => (i.product_name, i.unit)).Nodup := by
  rw [List.map_map]
  have hnd : ((aggTuples ts []).map Prod.fst).Nodup :=
    nodup_keys_aggTuples ts [] (by simp)
  have hl : (aggTuples ts []).Nodup := hnd.of_map _
  apply hl.map_on
  intro kv1 h1 kv2 h2 heq
  obtain ⟨t1, ht1, hkey1, _, _, _, _⟩ := agg_item_spec hbar h1
  obtain ⟨t2, ht2, hkey2, _, _, _, _⟩ := agg_item_spec hbar h2
  simp only [Function.comp_apply, Prod.mk.injEq] at heq
  have hk : kv1.1 = kv2.1 := by
    rw [hkey1, hkey2, heq.1, heq.2]
  have f1 := findVal_eq_some_of_mem hnd h1
  have f2 := findVal_eq_some_of_mem hnd h2
  rw [hk] at f1
  rw [f2] at f1
  exact Prod.ext hk (Option.some.inj f1.symm)

theorem fetchLoop_all_none (db : DbClient) (entries : List EntryRow)
    (acc : List (Str × AggVal)) (h : ∀ en ∈ entries, en.recipe_id = none) :
    fetchLoop db entries acc = (Except.ok acc, []) := by
  induction entries with
  | nil => rfl
  | cons e rest ih =>
    rw [fetchLoop_cons, h e (List.mem_cons_self e rest)]
    exact ih fun en hen => h en (List.mem_cons_of_mem _ hen)

theorem aggregateFrom_append (fetch : Str → List RecipeIngredient)
    (l1 l2 : List EntryRow) (acc : List (Str × AggVal)) :
    aggregateFrom fetch (l1 ++ l2) acc =
      aggregateFrom fetch l2 (aggregateFrom fetch l1 acc) := by
  rw [aggregateFrom, aggregateFrom, aggregateFrom, List.foldl_append]

theorem aggregateFrom_congr (fetch1 fetch2 : Str → List RecipeIngredient) :
    ∀ entries : List EntryRow,
      (∀ en ∈ entries, ∀ rid, en.recipe_id = some rid →
        fetch1 rid = fetch2 rid) →
      ∀ acc, aggregateFrom fetch1 entries acc =
        aggregateFrom fetch2 entries acc := by
  intro entries
  induction entries with
  | nil => intro _ _; rfl
  | cons e rest ih =>
    intro h acc
    rw [aggregateFrom_cons, aggregateFrom_cons]
    cases he : e.recipe_id with
    | none => exact ih (fun en hen rid hrid => h en (List.mem_cons_of_mem _ hen) rid hrid) acc
    | some rid =>
      dsimp only
      rw [h e (List.mem_cons_self e rest) rid he]
      exact ih
        (fun en hen rid2 hrid2 => h en (List.mem_cons_of_mem _ hen) rid2 hrid2)
        _

theorem generateShoppingList_congr {db1 db2 : DbClient} (p s e : Str)
    (hu : db1.user = db2.user)
    (hq : db1.queryEntries p s e = db2.queryEntries p s e)
    (hi : db1.queryIngredients = db2.queryIngredients)
    (hl : db1.insertShoppingList = db2.insertShoppingList)
    (hw : db1.insertItems = db2.insertItems) :
    generateShoppingList db1 p s e = generateShoppingList db2 p s e := by
  have hfl : fetchLoop db1 = fetchLoop db2 :=
    funext fun entries => funext fun acc => fetchLoop_congr hi entries acc
  unfold generateShoppingList
  rw [hu, hq, hl, hw, hfl]

/-! ## Claim theorems -/

/-- C1, amended: two source ingredient tuples merge into one output item
if and only if their full aggregation keys `name ++ "|" ++ unit` coincide;
PROVIDED no ingredient name contains the separator character `'|'`, this
holds if and only if their names are identical and their units are
identical (exact, case-sensitive matching).  Without the proviso the
criterion is key equality, not (name, unit) equality — see the
counterexample. -/
theorem claim_C1_merge_iff (n1 u1 n2 u2 : Str) (q1 q2 : Option ℚ)
    (m1 m2 : ℚ) (h1 : '|' ∉ n1) (h2 : '|' ∉ n2) :
    ((aggTuples [(m1, ⟨n1, q1, u1⟩), (m2, ⟨n2, q2, u2⟩)] []).length = 1 ↔
      (n1 = n2 ∧ u1 = u2)) ∧
    (mkKey n1 u1 = mkKey n2 u2 ↔ (n1 = n2 ∧ u1 = u2)) := by
  have hiff : mkKey n1 u1 = mkKey n2 u2 ↔ (n1 = n2 ∧ u1 = u2) := by
    constructor
    · exact mkKey_inj h1 h2
    · rintro ⟨rfl, rfl⟩; rfl
  refine ⟨?_, hiff⟩
  by_cases hk : mkKey n1 u1 = mkKey n2 u2
  · have hagg : aggTuples [(m1, ⟨n1, q1, u1⟩), (m2, ⟨n2, q2, u2⟩)] [] =
        [(mkKey n1 u1,
          ⟨(q1.getD 0) * m1 + (q2.getD 0) * m2, u1⟩)] := by
      simp only [aggTuples_cons, aggTuples_nil, aggStep]
      rw [insertIngredient_nil, insertIngredient_cons_self _ _ _ _ hk]
    rw [hagg]
    exact iff_of_true rfl (hiff.mp hk)
  · have hagg : aggTuples [(m1, ⟨n1, q1, u1⟩), (m2, ⟨n2, q2, u2⟩)] [] =
        [(mkKey n1 u1, ⟨(q1.getD 0) * m1, u1⟩),
         (mkKey n2 u2, ⟨(q2.getD 0) * m2, u2⟩)] := by
      simp only [aggTuples_cons, aggTuples_nil, aggStep]
      rw [insertIngredient_nil, insertIngredient_cons_ne _ _ _ _ hk,
        insertIngredient_nil]
    rw [hagg]
    exact iff_of_false (by simp) fun hc => hk (hiff.mpr hc)

/-- C1, counterexample: the two tuples `("a|b", qty 1, unit "c")` and
`("a", qty 1, unit "b|c")` have different names (and different units), yet
the aggregation merges them into a single output item, because their
concatenated keys are both `"a|b|c"`.  This refutes the claimed
"only if their names and units are identical" direction. -/
theorem claim_C1_counterexample :
    (['a', '|', 'b'] : Str) ≠ ['a'] ∧
    (['c'] : Str) ≠ ['b', '|', 'c'] ∧
    (aggTuples [(1, ⟨['a', '|', 'b'], some 1, ['c']⟩),
                (1, ⟨['a'], some 1, ['b', '|', 'c']⟩)] []).length = 1 := by
  refine ⟨by decide, by decide, ?_⟩
  rfl

theorem claim_C1_witness :
    ('|' ∉ (['x'] : Str)) ∧
    (aggTuples [(2, ⟨['x'], some 3, ['g']⟩),
                (5, ⟨['x'], some 1, ['g']⟩)] []).length = 1 ∧
    (aggTuples [(2, ⟨['x'], some 3, ['g']⟩),
                (5, ⟨['x'], some 1, ['c']⟩)] []).length ≠ 1 :=
  ⟨by decide,
   (claim_C1_merge_iff ['x'] ['g'] ['x'] ['g'] (some 3) (some 1) 2 5
     (by decide) (by decide)).1.mpr ⟨rfl, rfl⟩,
   fun hc =>
     (by decide : ¬((['g'] : Str) = ['c']))
       ((claim_C1_merge_iff ['x'] ['g'] ['x'] ['c'] (some 3) (some 1) 2 5
         (by decide) (by decide)).1.mp hc).2⟩

/-- C2, amended: PROVIDED no contributing ingredient name contains `'|'`,
the quantity of each merged output item equals the sum of
`quantity × servings` (null quantity contributing 0) over exactly the
contributing tuples carrying the (name, unit) pair of that item.  Without the
proviso, key collisions can fold tuples with other (name, unit) pairs into
the same item — see the counterexample. -/
theorem claim_C2_quantity (fetch : Str → List RecipeIngredient)
    (entries : List EntryRow)
    (hbar : ∀ t ∈ tuplesOfEntries fetch entries, '|' ∉ t.2.ingredient_name) :
    ∀ item ∈ shoppingItemsOf fetch entries,
      item.quantity = specContribution (tuplesOfEntries fetch entries)
        item.product_name item.unit := by
  intro item hitem
  rw [shoppingItemsOf, aggregateEntries_eq_aggTuples] at hitem
  obtain ⟨kv, hkv, rfl⟩ := List.mem_map.mp hitem
  obtain ⟨t, htmem, hkey, hname, hunit, hq, hpb⟩ := agg_item_spec hbar hkv
  rw [hq, hkey]
  exact keySum_eq_specContribution hbar hpb

/-- C2, counterexample: with the single ingredient tuple
`("a|b", qty 1, unit "c")` at servings 1, the merged output item has
product name `"a"` and unit `"c"`, but no input tuple has that (name,
unit) pair, so its quantity 1 differs from the claimed sum 0. -/
theorem claim_C2_counterexample :
    ¬ ∀ item ∈ shoppingItemsOf (fun _ => [⟨['a', '|', 'b'], some 1, ['c']⟩])
        [{ recipe_id := some ['R'], servings := 1 }],
      item.quantity = specContribution
        (tuplesOfEntries (fun _ => [⟨['a', '|', 'b'], some 1, ['c']⟩])
          [{ recipe_id := some ['R'], servings := 1 }])
        item.product_name item.unit := by
  intro h
  have hitems : shoppingItemsOf (fun _ => [⟨['a', '|', 'b'], some 1, ['c']⟩])
      [{ recipe_id := some ['R'], servings := 1 }] =
      [{ product_name := ['a'], quantity := (1 : ℚ) * 1, unit := ['c'],
         is_purchased := false }] := rfl
  have hcon := h _ (hitems ▸ List.mem_singleton.mpr rfl)
  have hspec : specContribution
      (tuplesOfEntries (fun _ => [⟨['a', '|', 'b'], some 1, ['c']⟩])
        [{ recipe_id := some ['R'], servings := 1 }]) ['a'] ['c'] = 0 := rfl
  rw [hspec] at hcon
  norm_num at hcon

theorem claim_C2_witness :
    (∀ t ∈ tuplesOfEntries (fun _ => [⟨['x'], some 2, ['g']⟩])
        [{ recipe_id := some ['R'], servings := 3 }],
      '|' ∉ t.2.ingredient_name) ∧
    ∀ item ∈ shoppingItemsOf (fun _ => [⟨['x'], some 2, ['g']⟩])
        [{ recipe_id := some ['R'], servings := 3 }],
      item.quantity = specContribution
        (tuplesOfEntries (fun _ => [⟨['x'], some 2, ['g']⟩])
          [{ recipe_id := some ['R'], servings := 3 }])
        item.product_name item.unit :=
  ⟨by decide,
   claim_C2_quantity (fun _ => [⟨['x'], some 2, ['g']⟩])
     [{ recipe_id := some ['R'], servings := 3 }] (by decide)⟩

/-- C8: the aggregation step is deterministic and stateless — its output is
a function of the fetched entry and ingredient data alone.  If two fetch
functions agree on every recipe referenced by the entries, the aggregation
produces literally equal item lists (stronger than equality up to
ordering), and in particular two runs on identical data coincide. -/
theorem claim_C8_pure (fetch1 fetch2 : Str → List RecipeIngredient)
    (entries : List EntryRow)
    (h : ∀ en ∈ entries, ∀ rid, en.recipe_id = some rid →
      fetch1 rid = fetch2 rid) :
    aggregateEntries fetch1 entries = aggregateEntries fetch2 entries :=
  aggregateFrom_congr fetch1 fetch2 entries h []

theorem claim_C8_witness :
    aggregateEntries
      (fun rid => if rid = ['R'] then [⟨['x'], some 1, ['g']⟩]
        else [⟨['y'], some 5, ['g']⟩])
      [{ recipe_id := some ['R'], servings := 2 }] =
    aggregateEntries
      (fun rid => if rid = ['R'] then [⟨['x'], some 1, ['g']⟩]
        else [⟨['z'], some 7, ['g']⟩])
      [{ recipe_id := some ['R'], servings := 2 }] :=
  claim_C8_pure _ _ _ (by
    intro en hen rid hrid
    simp only [List.mem_singleton] at hen
    subst hen
    simp only at hrid
    obtain rfl := Option.some.inj hrid
    simp)

/-- C3, amended: PROVIDED no fetched ingredient name contains `'|'`, no
two of the items a successful `generateShoppingList` run inserts share the
same (product name, unit) pair.  Without the proviso, a name containing
`'|'` can produce two distinct aggregation keys whose items carry the same
(product name, unit) — see the counterexample. -/
theorem claim_C3_nodup (db : DbClient) (p s e : Str) (r : GenResult)
    (hok : (generateShoppingList db p s e).1 = Except.ok r)
    (hbar : ∀ rid l, db.queryIngredients rid = Except.ok l →
      ∀ ing ∈ l, '|' ∉ ing.ingredient_name) :
    ((itemsWritten (generateShoppingList db p s e).2).map
      fun i => (i.product_name, i.unit)).Nodup := by
  obtain ⟨uid, entries, acc, ops, hu, hq, hfl, hacc, hins, hcount, hgen⟩ :=
    generate_ok_spec hok
  have hreads : ∀ op ∈ ops, ∃ rid, op = DbOp.readIngredients rid :=
    fun op hop =>
      fetchLoop_reads_only db entries [] op (by rw [hfl]; exact hop)
  have hlog : itemsWritten (generateShoppingList db p s e).2 =
      shoppingItemsOf (fetchOf db) entries := by
    rw [hgen]
    dsimp only
    rw [itemsWritten_append, itemsWritten_append, itemsWritten_append,
      itemsWritten_reads hreads]
    simp [itemsWritten_cons, itemsWritten_nil]
  rw [hlog, shoppingItemsOf, aggregateEntries_eq_aggTuples]
  apply agg_nodup_pairs
  intro t ht
  obtain ⟨en, hen, rid, hrid, hmem, hserv⟩ := mem_tuplesOfEntries ht
  cases hq2 : db.queryIngredients rid with
  | ok l =>
    have hf : fetchOf db rid = l := by rw [fetchOf, hq2]
    rw [hf] at hmem
    exact hbar rid l hq2 t.2 hmem
  | error m =>
    have hf : fetchOf db rid = [] := by rw [fetchOf, hq2]
    rw [hf] at hmem
    simp at hmem

/-- C3, counterexample: over a store holding the two ingredient rows
`("a", qty 1, unit "c")` and `("a|b", qty 1, unit "c")` for the same
recipe, a successful `generateShoppingList` run inserts two items whose
(product name, unit) pairs are both `("a", "c")`: the second key
`"a|b|c"` splits to product name `"a"` again. -/
theorem claim_C3_counterexample :
    ¬ ((itemsWritten (generateShoppingList
          (dbOfStore
            { meal_plan_entries :=
                [{ meal_plan_id := ['P'], recipe_id := some ['R'],
                   meal_date := ['d'], servings := 1 }]
              recipe_ingredients :=
                [{ recipe_id := ['R'], ingredient_name := ['a'],
                   quantity := some 1, unit := ['c'] },
                 { recipe_id := ['R'], ingredient_name := ['a', '|', 'b'],
                   quantity := some 1, unit := ['c'] }] }
            (some ['u']) ['L'])
          ['P'] ['d'] ['d']).2).map
        fun i => (i.product_name, i.unit)).Nodup := by
  decide

theorem claim_C3_witness :
    ((itemsWritten (generateShoppingList
        (dbOfStore
          { meal_plan_entries :=
              [{ meal_plan_id := ['P'], recipe_id := some ['R'],
                 meal_date := ['d'], servings := 1 }]
            recipe_ingredients :=
              [{ recipe_id := ['R'], ingredient_name := ['x'],
                 quantity := some 1, unit := ['g'] }] }
          (some ['u']) ['L'])
        ['P'] ['d'] ['d']).2).map
      fun i => (i.product_name, i.unit)).Nodup :=
  claim_C3_nodup _ ['P'] ['d'] ['d'] { listId := ['L'], itemCount := 1 }
    rfl
    (by
      intro rid l hl ing hing
      obtain rfl : queryIngredientsImpl _ rid = l := Except.ok.inj hl
      rw [queryIngredientsImpl] at hing
      simp only [List.mem_map, List.mem_filter, List.mem_singleton] at hing
      obtain ⟨row, ⟨hrow, _⟩, rfl⟩ := hing
      subst hrow
      decide)

/-- C10: every aggregation bucket (one bucket becomes one inserted item via
`toItem`) has a product name containing no `'|'`; the product name is the
prefix of the bucket key — hence of the first contributing ingredient name
— before its first `'|'`, while the unit is the stored unit of that first
contributing ingredient, not the second segment of the split. -/
theorem claim_C10_split (ts : List (ℚ × RecipeIngredient))
    (kv : Str × AggVal) (h : kv ∈ aggTuples ts []) :
    '|' ∉ (toItem kv).product_name ∧
    ∃ t, (ts.find? fun tt =>
        decide (mkKey tt.2.ingredient_name tt.2.unit = kv.1)) = some t ∧
      (toItem kv).product_name = beforeBar t.2.ingredient_name ∧
      (toItem kv).unit = t.2.unit := by
  obtain ⟨t, hfind, htmem, hkey, hval⟩ := agg_mem_spec h
  have hname : (toItem kv).product_name = beforeBar t.2.ingredient_name := by
    show (splitBar kv.1).headD [] = beforeBar t.2.ingredient_name
    rw [splitBar_headD, ← hkey, mkKey, beforeBar_append_bar]
  refine ⟨by rw [hname]; exact bar_not_mem_beforeBar _, t, hfind, hname, ?_⟩
  show kv.2.unit = t.2.unit
  rw [hval]

theorem claim_C10_witness :
    '|' ∉ (toItem (['a', '|', 'b', '|', 'c'],
      (⟨(1 : ℚ) * 1, ['c']⟩ : AggVal))).product_name ∧
    ∃ t, ([((1 : ℚ), (⟨['a', '|', 'b'], some 1, ['c']⟩ : RecipeIngredient))].find?
        fun tt => decide (mkKey tt.2.ingredient_name tt.2.unit =
          ['a', '|', 'b', '|', 'c'])) = some t ∧
      (toItem (['a', '|', 'b', '|', 'c'],
        (⟨(1 : ℚ) * 1, ['c']⟩ : AggVal))).product_name =
        beforeBar t.2.ingredient_name ∧
      (toItem (['a', '|', 'b', '|', 'c'],
        (⟨(1 : ℚ) * 1, ['c']⟩ : AggVal))).unit = t.2.unit :=
  claim_C10_split [(1, ⟨['a', '|', 'b'], some 1, ['c']⟩)]
    (['a', '|', 'b', '|', 'c'], ⟨(1 : ℚ) * 1, ['c']⟩)
    (List.Mem.head _)

/-- C4: the entries read of `generateShoppingList` selects exactly the
rows of the given meal plan whose meal date lies within
`[startDate, endDate]`, inclusive on both ends, dates compared
lexicographically (equivalently chronologically for ISO-8601 dates); and
a row of the wrong plan or outside the range contributes nothing — removing
it from the store leaves the entire run unchanged. -/
theorem claim_C4_range (st : Store) (pid s e : Str) :
    (∀ q, q ∈ queryEntriesImpl st pid s e ↔
      ∃ row ∈ st.meal_plan_entries,
        row.meal_plan_id = pid ∧ strLe s row.meal_date = true ∧
        strLe row.meal_date e = true ∧
        q = { recipe_id := row.recipe_id, servings := row.servings }) ∧
    (∀ (u : Option Str) (lid : Str) (xs ys : List StoreEntryRow)
        (row : StoreEntryRow) (ings : List StoreIngRow),
      ¬(row.meal_plan_id = pid ∧ strLe s row.meal_date = true ∧
          strLe row.meal_date e = true) →
      generateShoppingList
          (dbOfStore { meal_plan_entries := xs ++ row :: ys,
                       recipe_ingredients := ings } u lid) pid s e =
        generateShoppingList
          (dbOfStore { meal_plan_entries := xs ++ ys,
                       recipe_ingredients := ings } u lid) pid s e) := by
  constructor
  · intro q
    rw [queryEntriesImpl]
    simp only [List.mem_map, List.mem_filter, entryMatches, Bool.and_eq_true,
      decide_eq_true_eq]
    constructor
    · rintro ⟨row, ⟨hmem, ⟨hp, hs⟩, he⟩, rfl⟩
      exact ⟨row, hmem, hp, hs, he, rfl⟩
    · rintro ⟨row, hmem, hp, hs, he, rfl⟩
      exact ⟨row, ⟨hmem, ⟨hp, hs⟩, he⟩, rfl⟩
  · intro u lid xs ys row ings hrow
    have hmatch : entryMatches pid s e row = false := by
      apply Bool.eq_false_iff.mpr
      intro htrue
      rw [entryMatches, Bool.and_eq_true, Bool.and_eq_true,
        decide_eq_true_eq] at htrue
      exact hrow ⟨htrue.1.1, htrue.1.2, htrue.2⟩
    apply generateShoppingList_congr
    · rfl
    · show Except.ok (queryEntriesImpl _ pid s e) =
        Except.ok (queryEntriesImpl _ pid s e)
      congr 1
      rw [queryEntriesImpl, queryEntriesImpl]
      simp [List.filter_append, List.filter_cons, hmatch]
    · funext rid; rfl
    · rfl
    · rfl

theorem claim_C4_witness :
    (({ recipe_id := none, servings := 1 } : EntryRow) ∈
      queryEntriesImpl
        { meal_plan_entries :=
            [{ meal_plan_id := ['P'], recipe_id := none, meal_date := ['d'],
               servings := 1 }]
          recipe_ingredients := [] } ['P'] ['c'] ['e']) ∧
    generateShoppingList
        (dbOfStore
          { meal_plan_entries :=
              [{ meal_plan_id := ['Q'], recipe_id := none, meal_date := ['d'],
                 servings := 1 },
               { meal_plan_id := ['P'], recipe_id := none, meal_date := ['d'],
                 servings := 1 }]
            recipe_ingredients := [] } (some ['u']) ['L']) ['P'] ['c'] ['e'] =
      generateShoppingList
        (dbOfStore
          { meal_plan_entries :=
              [{ meal_plan_id := ['P'], recipe_id := none, meal_date := ['d'],
                 servings := 1 }]
            recipe_ingredients := [] } (some ['u']) ['L']) ['P'] ['c'] ['e'] :=
  ⟨((claim_C4_range
      { meal_plan_entries :=
          [{ meal_plan_id := ['P'], recipe_id := none, meal_date := ['d'],
             servings := 1 }]
        recipe_ingredients := [] } ['P'] ['c'] ['e']).1 _).mpr
    ⟨{ meal_plan_id := ['P'], recipe_id := none, meal_date := ['d'],
       servings := 1 }, List.Mem.head _, rfl, by decide, by decide, rfl⟩,
   (claim_C4_range
      { meal_plan_entries := [], recipe_ingredients := [] }
      ['P'] ['c'] ['e']).2 (some ['u']) ['L'] []
    [{ meal_plan_id := ['P'], recipe_id := none, meal_date := ['d'],
       servings := 1 }]
    { meal_plan_id := ['Q'], recipe_id := none, meal_date := ['d'],
      servings := 1 } [] (by decide)⟩

/-- C5: when the selected entries are empty or all have a null recipe
reference (and the writes themselves succeed), `generateShoppingList`
returns `itemCount = 0` with no error; moreover a null-recipe entry is
skipped entirely — removing it from the entry list leaves the aggregation
unchanged. -/
theorem claim_C5_empty (db : DbClient) (p s e uid lid : Str)
    (entries : List EntryRow)
    (hu : db.user = some uid)
    (hq : db.queryEntries p s e = Except.ok entries)
    (hnull : ∀ en ∈ entries, en.recipe_id = none)
    (hins : db.insertShoppingList
        { user_id := uid, meal_plan_id := p, name := listName s e } =
      Except.ok lid)
    (hit : db.insertItems lid [] = Except.ok ()) :
    (generateShoppingList db p s e).1 =
      Except.ok { listId := lid, itemCount := 0 } ∧
    ∀ (fetch : Str → List RecipeIngredient) (xs ys : List EntryRow)
      (en : EntryRow), en.recipe_id = none →
      aggregateEntries fetch (xs ++ en :: ys) =
        aggregateEntries fetch (xs ++ ys) := by
  constructor
  · have hfl : fetchLoop db entries [] = (Except.ok [], []) :=
      fetchLoop_all_none db entries [] hnull
    have hgen := generate_ok_full db p s e uid lid entries [] [] hu hq hfl
      hins hit
    rw [hgen]
    rfl
  · intro fetch xs ys en hen
    show aggregateFrom fetch (xs ++ en :: ys) [] =
      aggregateFrom fetch (xs ++ ys) []
    rw [aggregateFrom_append, aggregateFrom_cons, hen, aggregateFrom_append]

theorem claim_C5_witness :
    (generateShoppingList
        { user := some ['u']
          queryEntries := fun _ _ _ =>
            Except.ok [{ recipe_id := none, servings := 1 }]
          queryIngredients := fun _ => Except.ok []
          insertShoppingList := fun _ => Except.ok ['L']
          insertItems := fun _ _ => Except.ok () } ['P'] ['a'] ['b']).1 =
      Except.ok { listId := ['L'], itemCount := 0 } ∧
    ∀ (fetch : Str → List RecipeIngredient) (xs ys : List EntryRow)
      (en : EntryRow), en.recipe_id = none →
      aggregateEntries fetch (xs ++ en :: ys) =
        aggregateEntries fetch (xs ++ ys) :=
  claim_C5_empty _ ['P'] ['a'] ['b'] ['u'] ['L']
    [{ recipe_id := none, servings := 1 }] rfl rfl (by decide) rfl rfl

/-- C6: with no authenticated user, `generateShoppingList` fails with the
not-authenticated error, and the operation log contains nothing but the
auth lookup — no store read and no store write was issued. -/
theorem claim_C6_auth (db : DbClient) (p s e : Str) (hu : db.user = none) :
    (generateShoppingList db p s e).1 =
      Except.error GenError.notAuthenticated ∧
    ∀ op ∈ (generateShoppingList db p s e).2, op = DbOp.readUser := by
  rw [generate_user_none db p s e hu]
  exact ⟨rfl, fun op hop => List.mem_singleton.mp hop⟩

theorem claim_C6_witness :
    (generateShoppingList
        { user := none
          queryEntries := fun _ _ _ => Except.ok []
          queryIngredients := fun _ => Except.ok []
          insertShoppingList := fun _ => Except.ok ['L']
          insertItems := fun _ _ => Except.ok () } ['P'] ['a'] ['b']).1 =
      Except.error GenError.notAuthenticated ∧
    ∀ op ∈ (generateShoppingList
        { user := none
          queryEntries := fun _ _ _ => Except.ok []
          queryIngredients := fun _ => Except.ok []
          insertShoppingList := fun _ => Except.ok ['L']
          insertItems := fun _ _ => Except.ok () } ['P'] ['a'] ['b']).2,
      op = DbOp.readUser :=
  claim_C6_auth _ ['P'] ['a'] ['b'] rfl

/-- C7: if a store read that the run actually performed failed — the
entries query, or any issued recipe-ingredients query — then
`generateShoppingList` propagates a store error and its operation log
contains no write: neither a `shopping_lists` insert nor a
`shopping_list_items` insert was issued. -/
theorem claim_C7_fetch (db : DbClient) (p s e : Str)
    (h : (∃ m, DbOp.readEntries p s e ∈ (generateShoppingList db p s e).2 ∧
            db.queryEntries p s e = Except.error m) ∨
         (∃ rid m,
            DbOp.readIngredients rid ∈ (generateShoppingList db p s e).2 ∧
            db.queryIngredients rid = Except.error m)) :
    (∃ m, (generateShoppingList db p s e).1 =
      Except.error (GenError.dbError m)) ∧
    ∀ op ∈ (generateShoppingList db p s e).2, op.isWrite = false := by
  cases hu : db.user with
  | none =>
    rw [generate_user_none db p s e hu] at h
    rcases h with ⟨m, hmem, _⟩ | ⟨rid, m, hmem, _⟩
    · exact absurd (List.mem_singleton.mp hmem) (by simp)
    · exact absurd (List.mem_singleton.mp hmem) (by simp)
  | some uid =>
    cases hq : db.queryEntries p s e with
    | error m =>
      rw [generate_entries_error db p s e uid m hu hq]
      refine ⟨⟨m, rfl⟩, ?_⟩
      intro op hop
      rcases List.mem_cons.mp hop with rfl | hop2
      · rfl
      · rw [List.mem_singleton.mp hop2]; rfl
    | ok entries =>
      have hing : ∃ rid m,
          DbOp.readIngredients rid ∈ (generateShoppingList db p s e).2 ∧
          db.queryIngredients rid = Except.error m := by
        rcases h with ⟨m, _, hqe⟩ | h2
        · rw [hq] at hqe; exact absurd hqe (by simp)
        · exact h2
      obtain ⟨rid, m, hmem, hqi⟩ := hing
      cases hfl : fetchLoop db entries [] with
      | mk res1 ops =>
        cases res1 with
        | error m2 =>
          rw [generate_fetch_error db p s e uid m2 entries ops hu hq hfl]
          refine ⟨⟨m2, rfl⟩, ?_⟩
          intro op hop
          rcases List.mem_append.mp hop with hop1 | hop2
          · rcases List.mem_cons.mp hop1 with rfl | hop1b
            · rfl
            · rw [List.mem_singleton.mp hop1b]; rfl
          · obtain ⟨rid2, rfl⟩ := fetchLoop_reads_only db entries [] op
              (by rw [hfl]; exact hop2)
            rfl
        | ok acc =>
          exfalso
          have hmem_ops : DbOp.readIngredients rid ∈ ops := by
            cases hins : db.insertShoppingList
                { user_id := uid, meal_plan_id := p,
                  name := listName s e } with
            | error m3 =>
              rw [generate_insert_error db p s e uid m3 entries acc ops hu hq
                hfl hins] at hmem
              simpa using hmem
            | ok lid =>
              cases hit : db.insertItems lid (acc.map toItem) with
              | error m4 =>
                rw [generate_items_error db p s e uid lid m4 entries acc ops
                  hu hq hfl hins hit] at hmem
                simpa using hmem
              | ok u2 =>
                obtain rfl : u2 = () := rfl
                rw [generate_ok_full db p s e uid lid entries acc ops hu hq
                  hfl hins hit] at hmem
                simpa using hmem
          have herr := fetchLoop_read_error db hqi entries []
            (by rw [hfl]; exact hmem_ops)
          rw [hfl] at herr
          exact absurd herr (by simp)

theorem claim_C7_witness :
    (∃ m, (generateShoppingList
        { user := some ['u']
          queryEntries := fun _ _ _ => Except.error ['E']
          queryIngredients := fun _ => Except.ok []
          insertShoppingList := fun _ => Except.ok ['L']
          insertItems := fun _ _ => Except.ok () } ['P'] ['a'] ['b']).1 =
      Except.error (GenError.dbError m)) ∧
    ∀ op ∈ (generateShoppingList
        { user := some ['u']
          queryEntries := fun _ _ _ => Except.error ['E']
          queryIngredients := fun _ => Except.ok []
          insertShoppingList := fun _ => Except.ok ['L']
          insertItems := fun _ _ => Except.ok () } ['P'] ['a'] ['b']).2,
      op.isWrite = false :=
  claim_C7_fetch _ ['P'] ['a'] ['b'] (Or.inl ⟨['E'], by decide, rfl⟩)

/-- C9: every successful `generateShoppingList` run issues exactly one
`shopping_lists` insert, and its row carries the current authenticated
user, the given meal-plan identifier, and exactly the name
`Shopping List for {startDate} to {endDate}`. -/
theorem claim_C9_list_row (db : DbClient) (p s e uid : Str) (r : GenResult)
    (hu : db.user = some uid)
    (hok : (generateShoppingList db p s e).1 = Except.ok r) :
    (generateShoppingList db p s e).2.filter DbOp.isListInsert =
      [DbOp.writeList
        { user_id := uid, meal_plan_id := p, name := listName s e }] := by
  obtain ⟨uid2, entries, acc, ops, hu2, hq, hfl, hacc, hins, hcount, hgen⟩ :=
    generate_ok_spec hok
  obtain rfl : uid2 = uid := Option.some.inj (hu2.symm.trans hu)
  rw [hgen]
  dsimp only
  rw [List.filter_append, List.filter_append, List.filter_append]
  have hops : ops.filter DbOp.isListInsert = [] := by
    rw [List.filter_eq_nil_iff]
    intro op hop
    obtain ⟨rid, rfl⟩ := fetchLoop_reads_only db entries [] op
      (by rw [hfl]; exact hop)
    simp [DbOp.isListInsert]
  rw [hops]
  simp [DbOp.isListInsert]

theorem claim_C9_witness :
    (generateShoppingList
        (dbOfStore { meal_plan_entries := [], recipe_ingredients := [] }
          (some ['u']) ['L']) ['P'] ['a'] ['b']).2.filter
      DbOp.isListInsert =
      [DbOp.writeList
        { user_id := ['u'], meal_plan_id := ['P'],
          name := listName ['a'] ['b'] }] :=
  claim_C9_list_row _ ['P'] ['a'] ['b'] ['u']
    { listId := ['L'], itemCount := 0 } rfl rfl

end AppWeb
